import Mathlib

/-!
# UniqPtr (src/Homework_5.cpp)

A shallow embedding of the class template `UniquePointerNamespace::UniqPtr<T>`.

* A raw pointer `T*` is a natural number; `0` is `nullptr`.  A non-null
  number names one allocation: `new` never hands the same number out twice,
  so counting the `delete`s of a number counts the deallocations of that
  allocation.
* The heap keeps the live allocations with their values and a log of every
  `delete` of a non-null pointer (`delete nullptr` does nothing).
* Objects of type `UniqPtr<T>` live in a store; the position of an object in
  the store is its identity (what `this != &other` compares).
-/

namespace UniquePointerNamespace

/-- The enumeration `PointerState` (lines 8-12). -/
inductive PointerState where
  | EMPTY
  | VALID
  | RELEASED
deriving DecidableEq, Repr

/-- The data members of `UniqPtr<T>` (lines 18-19): `ptr` and `state`. -/
structure UniqPtr where
  ptr : Nat
  state : PointerState
deriving DecidableEq, Repr

/-- The heap: `count` allocations were made so far (their handles are
`1 .. count`), `live` holds the allocations not yet deleted with their values,
`freed` logs each `delete` of a non-null pointer, latest first. -/
structure Heap (T : Type) where
  count : Nat
  live : List (Nat × T)
  freed : List Nat
deriving DecidableEq, Repr

namespace Heap

variable {T : Type}

/-- The heap of a program that has not allocated yet. -/
def empty : Heap T := ⟨0, [], []⟩

/-- The expression `new T(v)`: a fresh non-null handle whose cell holds `v`. -/
def new (h : Heap T) (v : T) : Nat × Heap T :=
  (h.count + 1, { h with count := h.count + 1, live := (h.count + 1, v) :: h.live })

/-- The statement `delete p`: nothing for `nullptr`; otherwise the allocation
stops being live and the deallocation is logged. -/
def delete (h : Heap T) (p : Nat) : Heap T :=
  if p = 0 then h
  else { h with live := h.live.filter (fun e => e.1 != p), freed := p :: h.freed }

/-- The value `*p`; `none` where the C++ expression has no defined value
(`p` is null or not a live allocation). -/
def read (h : Heap T) (p : Nat) : Option T :=
  if p = 0 then none else (h.live.find? (fun e => e.1 == p)).map Prod.snd

/-- How many times the allocation `p` has been deallocated. -/
def deallocs (h : Heap T) (p : Nat) : Nat := h.freed.count p

end Heap

namespace UniqPtr

/-- The method `operator*() const` (lines 83-86): `return *ptr;`. -/
def deref {T : Type} (c : UniqPtr) (h : Heap T) : Option T := h.read c.ptr

/-- The method `operator->() const` (lines 89-92): `return ptr;`. -/
def arrow (c : UniqPtr) : Nat := c.ptr

/-- The method `explicit operator bool() const` (lines 95-98):
`return ptr != nullptr;`. -/
def toBool (c : UniqPtr) : Bool := c.ptr != 0

/-- The method `getState() const` (lines 101-103): `return state;`. -/
def getState (c : UniqPtr) : PointerState := c.state

end UniqPtr

/-- The program state: the store of `UniqPtr` objects (an object is named by
its position), the heap, and the non-null handles that `release` has handed
back to the caller, latest first. -/
structure Sys (T : Type) where
  cells : List UniqPtr
  heap : Heap T
  handed : List Nat
deriving DecidableEq, Repr

namespace Sys

variable {T : Type}

/-- A program state with no objects and an untouched heap. -/
def init : Sys T := ⟨[], Heap.empty, []⟩

/-- The constructor `UniqPtr()` (line 23): a new object
`ptr(nullptr), state(EMPTY)`. -/
def ctorDefault (s : Sys T) : Sys T :=
  { s with cells := s.cells ++ [⟨0, PointerState.EMPTY⟩] }

/-- The constructor `explicit UniqPtr(T* p)` (line 26): a new object
`ptr(p), state(VALID)`. -/
def ctor (s : Sys T) (p : Nat) : Sys T :=
  { s with cells := s.cells ++ [⟨p, PointerState.VALID⟩] }

/-- The declaration `UniqPtr<T> x(new T(v));` (line 111): allocate, then
construct from the fresh pointer. -/
def ctorNew (s : Sys T) (v : T) : Sys T :=
  let r := s.heap.new v
  ctor { s with heap := r.2 } r.1

/-- The move constructor `UniqPtr(UniqPtr&& other)` (lines 33-37), `other`
being object `j`: the new object is `ptr(other.ptr), state(other.state)`, then
`other.ptr = nullptr; other.state = EMPTY;`. -/
def moveCtor (s : Sys T) (j : Nat) : Sys T :=
  match s.cells[j]? with
  | none => s
  | some other =>
    { s with cells := (s.cells ++ [UniqPtr.mk other.ptr other.state]).set j ⟨0, PointerState.EMPTY⟩ }

/-- The move assignment `operator=(UniqPtr&& other)` (lines 39-50) on object
`i` with `other` being object `j`. -/
def moveAssign (s : Sys T) (i j : Nat) : Sys T :=
  match s.cells[i]?, s.cells[j]? with
  | some this, some other =>
    if i ≠ j then
      { s with
        heap := s.heap.delete this.ptr
        cells := (s.cells.set i ⟨other.ptr, other.state⟩).set j ⟨0, PointerState.EMPTY⟩ }
    else s
  | _, _ => s

/-- The destructor `~UniqPtr()` (lines 53-56) of one object: `delete ptr;`. -/
def dtor (h : Heap T) (c : UniqPtr) : Heap T := h.delete c.ptr

/-- The method `swap(UniqPtr& other)` (lines 59-63) on object `i` with `other`
being object `j`: `std::swap(ptr, other.ptr); std::swap(state, other.state);`. -/
def swap (s : Sys T) (i j : Nat) : Sys T :=
  match s.cells[i]?, s.cells[j]? with
  | some this, some other =>
    { s with cells := (s.cells.set i ⟨other.ptr, other.state⟩).set j ⟨this.ptr, this.state⟩ }
  | _, _ => s

/-- The method `free()` (lines 66-71) on object `i`:
`delete ptr; ptr = nullptr; state = RELEASED;`. -/
def free (s : Sys T) (i : Nat) : Sys T :=
  match s.cells[i]? with
  | none => s
  | some this =>
    { s with
      heap := s.heap.delete this.ptr
      cells := s.cells.set i ⟨0, PointerState.RELEASED⟩ }

/-- The method `release()` (lines 74-80) on object `i`:
`T* temp = ptr; ptr = nullptr; state = RELEASED; return temp;`.
The first component is the returned pointer. -/
def release (s : Sys T) (i : Nat) : Nat × Sys T :=
  match s.cells[i]? with
  | none => (0, s)
  | some this => (this.ptr, { s with cells := s.cells.set i ⟨0, PointerState.RELEASED⟩ })

/-- Destruction of every object, in reverse order of construction. -/
def destroyAll (s : Sys T) : Sys T :=
  { s with cells := [], heap := s.cells.reverse.foldl dtor s.heap }

end Sys

/-- One public operation of a caller.  Object arguments are positions in the
store; an operation that names an object that does not exist is skipped. -/
inductive Op (T : Type) where
  | ctorDefault
  | ctor (p : Nat)
  | ctorNew (v : T)
  | moveCtor (j : Nat)
  | moveAssign (i j : Nat)
  | swap (i j : Nat)
  | free (i : Nat)
  | release (i : Nat)

namespace Op

variable {T : Type}

/-- Whether the operation passes a caller-chosen raw pointer to
`explicit UniqPtr(T* p)`. -/
def isRawCtor : Op T → Bool
  | ctor _ => true
  | _ => false

/-- Whether the operation is `UniqPtr<T> x(new T(v));`, the one operation
that allocates. -/
def isCtorNew : Op T → Bool
  | ctorNew _ => true
  | _ => false

/-- Whether the operation passes `nullptr` to `explicit UniqPtr(T* p)`. -/
def wrapsNull : Op T → Bool
  | ctor p => p == 0
  | _ => false

/-- Whether the operation is `free()` or `release()` on object `k`. -/
def dropsAt (k : Nat) : Op T → Bool
  | free i => i == k
  | release i => i == k
  | _ => false

/-- Whether the operation is a move (construction or assignment between two
different objects) whose source is object `k`. -/
def movesFrom (k : Nat) : Op T → Bool
  | moveCtor j => j == k
  | moveAssign i j => j == k && i != j
  | _ => false

/-- Whether the operation is a swap in which object `k` takes part. -/
def swapsAt (k : Nat) : Op T → Bool
  | swap i j => i == k || j == k
  | _ => false

/-- Whether the operation constructs an object (default, from a pointer, or
from a fresh allocation); the others act on existing objects. -/
def isCtor : Op T → Bool
  | ctorDefault => true
  | ctor _ => true
  | ctorNew _ => true
  | _ => false

end Op

namespace Sys

variable {T : Type}

/-- Run one operation.  A pointer returned by `release` goes to the caller:
it is logged in `handed` when non-null. -/
def step (s : Sys T) : Op T → Sys T
  | .ctorDefault => s.ctorDefault
  | .ctor p => s.ctor p
  | .ctorNew v => s.ctorNew v
  | .moveCtor j => s.moveCtor j
  | .moveAssign i j => s.moveAssign i j
  | .swap i j => s.swap i j
  | .free i => s.free i
  | .release i =>
    let r := s.release i
    if r.1 = 0 then r.2 else { r.2 with handed := r.1 :: r.2.handed }

/-- Run a sequence of operations, first to last. -/
def run (s : Sys T) (ops : List (Op T)) : Sys T := ops.foldl step s

/-- The number of objects of a store whose pointer is `p`. -/
def owners (cells : List UniqPtr) (p : Nat) : Nat :=
  cells.countP (fun c => c.ptr == p)

/-- No two distinct objects hold the same non-null pointer. -/
def NoAlias (cells : List UniqPtr) : Prop :=
  ∀ (i j : Nat) (a b : UniqPtr), cells[i]? = some a → cells[j]? = some b →
    i ≠ j → a.ptr ≠ 0 → a.ptr ≠ b.ptr

/-- The objects of a program that wrapped each pointer of `ps`, in order, with
`explicit UniqPtr(T* p)`, on heap `h`. -/
def wrapAll (h : Heap T) (ps : List Nat) : Sys T :=
  ps.foldl ctor ⟨[], h, []⟩

/-- Ownership accounting: every allocation made so far (a handle from `1` to
`heap.count`) is in exactly one place: held by one object, deallocated once,
or handed back to the caller once; a handle that was never allocated is in
none of them. -/
def Accounted (s : Sys T) : Prop :=
  ∀ p : Nat, p ≠ 0 →
    owners s.cells p + s.heap.deallocs p + s.handed.count p =
      if p ≤ s.heap.count then 1 else 0

/-- The call `x.getState()` on object `i` as a step of the program (lines
101-103): the body is `return state;` and writes nothing, so the program state
after the call is the one before.  The first component is the returned value. -/
def getState (s : Sys T) (i : Nat) : Option PointerState × Sys T :=
  match s.cells[i]? with
  | none => (none, s)
  | some this => (some this.state, s)

/-- The pointer object `k` holds in state `s` (`nullptr` for an object that
does not exist yet). -/
def ptrAt (s : Sys T) (k : Nat) : Nat := (s.cells[k]?.map UniqPtr.ptr).getD 0

/-- Per-object history, in the words of the data model: during the run of
`ops` from `s`, object `k` held a value (a non-null pointer) at a moment when
`free()` or `release()` was called on it. -/
def droppedValue (k : Nat) : Sys T → List (Op T) → Bool
  | _, [] => false
  | s, op :: ops => (op.dropsAt k && s.ptrAt k != 0) || droppedValue k (s.step op) ops

/-- Per-object history, in the words of the data model: object `k` held a value
(a non-null pointer) in `s` or in some later state of the run of `ops`. -/
def everHeld (k : Nat) : Sys T → List (Op T) → Bool
  | s, [] => s.ptrAt k != 0
  | s, op :: ops => s.ptrAt k != 0 || everHeld k (s.step op) ops

/-- Per-object history, in the words of the data model: during the run of
`ops` from `s`, ownership left object `k` for another object, by a move whose
source is `k` or by a swap with `k`, at a moment when `k` existed. -/
def movedAway (k : Nat) : Sys T → List (Op T) → Bool
  | _, [] => false
  | s, op :: ops =>
    ((op.movesFrom k || op.swapsAt k) && (s.cells[k]?).isSome) || movedAway k (s.step op) ops

end Sys

/-- The origin of the `(ptr, state)` pair an object stores: written by the
default constructor, by the pointer constructor, by a move that took the object
as its source, or by `free()` / `release()`. -/
inductive Mark where
  | fresh
  | given
  | source
  | dropped
deriving DecidableEq, Repr

namespace Mark

/-- The `state` each kind of write stores (lines 23, 26, 36 and 47, 70 and 78). -/
def stateOf : Mark → PointerState
  | fresh => PointerState.EMPTY
  | given => PointerState.VALID
  | source => PointerState.EMPTY
  | dropped => PointerState.RELEASED

end Mark

namespace Sys

variable {T : Type}

/-- How one operation changes the origin marks of the objects: a constructor
adds the mark of its write; a move carries the mark of the source to the
destination and marks the source; a swap exchanges the two marks; `free()` and
`release()` mark their object.  An operation on an object that does not exist
is skipped. -/
def stepMarks (ms : List Mark) : Op T → List Mark
  | .ctorDefault => ms ++ [Mark.fresh]
  | .ctor _ => ms ++ [Mark.given]
  | .ctorNew _ => ms ++ [Mark.given]
  | .moveCtor j =>
    match ms[j]? with
    | none => ms
    | some m => (ms ++ [m]).set j Mark.source
  | .moveAssign i j =>
    match ms[i]?, ms[j]? with
    | some _, some m => if i ≠ j then (ms.set i m).set j Mark.source else ms
    | _, _ => ms
  | .swap i j =>
    match ms[i]?, ms[j]? with
    | some a, some b => (ms.set i b).set j a
    | _, _ => ms
  | .free i => ms.set i Mark.dropped
  | .release i => ms.set i Mark.dropped

/-- The origin marks of the objects after the run of `ops` from the empty
program, computed from the operations alone. -/
def history (ops : List (Op T)) : List Mark := ops.foldl stepMarks []

end Sys

namespace Sys

variable {T : Type}

/-! ## Single operations -/

theorem getElem?_lt_length {α : Type} {l : List α} {i : Nat} {a : α}
    (h : l[i]? = some a) : i < l.length := by
  by_contra hc
  rw [List.getElem?_eq_none (by omega)] at h
  cases h

theorem find?_filter_ne {T : Type} (l : List (Nat × T)) (p q : Nat) (hq : q ≠ p) :
    (l.filter (fun e => e.1 != p)).find? (fun e => e.1 == q) = l.find? (fun e => e.1 == q) := by
  induction l with
  | nil => rfl
  | cons e l ih =>
    simp only [List.filter_cons, List.find?_cons]
    by_cases hp : e.1 = p
    · have h1 : (e.1 != p) = false := by simp [hp]
      have h2 : (e.1 == q) = false := by
        simp only [beq_eq_false_iff_ne]
        exact fun h => hq (h ▸ hp)
      rw [h1, h2]
      exact ih
    · have h1 : (e.1 != p) = true := by simp [hp]
      rw [h1]
      simp only [if_true, List.find?_cons]
      cases h2 : (e.1 == q)
      · exact ih
      · rfl

theorem read_delete_ne (h : Heap T) (p q : Nat) (hq : q ≠ p) :
    (h.delete p).read q = h.read q := by
  unfold Heap.delete Heap.read
  by_cases hp : p = 0
  · simp [hp]
  · simp only [hp, if_false]
    rw [find?_filter_ne _ _ _ hq]

theorem find?_filter_self {T : Type} (l : List (Nat × T)) (p : Nat) :
    (l.filter (fun e => e.1 != p)).find? (fun e => e.1 == p) = none := by
  simp [List.find?_eq_none]

theorem read_delete_self (h : Heap T) (p : Nat) : (h.delete p).read p = none := by
  unfold Heap.delete Heap.read
  by_cases hp : p = 0
  · simp [hp]
  · simp only [hp, if_false]
    rw [find?_filter_self]
    rfl

/-- C3: a cell constructed from an allocation holding `v` dereferences to `v`
and reports `VALID`; both for the fresh allocation of `new T(v)` and for any
pointer `p` to a live allocation holding `v`. -/
theorem ctor_deref (s : Sys T) (v : T) :
    ((s.ctorNew v).cells[s.cells.length]? = some ⟨s.heap.count + 1, PointerState.VALID⟩ ∧
      UniqPtr.deref ⟨s.heap.count + 1, PointerState.VALID⟩ (s.ctorNew v).heap = some v ∧
      UniqPtr.getState ⟨s.heap.count + 1, PointerState.VALID⟩ = PointerState.VALID) ∧
    (∀ p : Nat, s.heap.read p = some v →
      (s.ctor p).cells[s.cells.length]? = some ⟨p, PointerState.VALID⟩ ∧
      UniqPtr.deref ⟨p, PointerState.VALID⟩ (s.ctor p).heap = some v ∧
      UniqPtr.getState ⟨p, PointerState.VALID⟩ = PointerState.VALID) := by
  refine ⟨⟨?_, ?_, rfl⟩, fun p hp => ⟨?_, hp, rfl⟩⟩
  · simp [ctorNew, ctor, Heap.new]
  · simp [ctorNew, ctor, Heap.new, UniqPtr.deref, Heap.read]
  · simp [ctor]

theorem ctor_deref_witness :
    (Sys.mk [] (Heap.empty.new (42 : Nat)).2 []).heap.read 1 = some 42 ∧
    ((Sys.mk [] (Heap.empty.new (42 : Nat)).2 []).ctor 1).cells[0]? =
      some ⟨1, PointerState.VALID⟩ ∧
    UniqPtr.deref ⟨1, PointerState.VALID⟩
      ((Sys.mk [] (Heap.empty.new (42 : Nat)).2 []).ctor 1).heap = some 42 :=
  ⟨by decide,
   ((ctor_deref (Sys.mk [] (Heap.empty.new (42 : Nat)).2 []) 42).2 1 (by decide)).1,
   ((ctor_deref (Sys.mk [] (Heap.empty.new (42 : Nat)).2 []) 42).2 1 (by decide)).2.1⟩

/-- C4: move-constructing a new object from object `j` (holding `a`) leaves
object `j` with a null pointer and state `EMPTY`, gives the new object the
pointer and state `a` had (so it dereferences to whatever `a` dereferenced
to), leaves every other object alone, and does not touch the heap. -/
theorem moveCtor_spec (s : Sys T) (j : Nat) (a : UniqPtr) (hj : s.cells[j]? = some a) :
    (s.moveCtor j).cells[j]? = some ⟨0, PointerState.EMPTY⟩ ∧
    UniqPtr.getState ⟨0, PointerState.EMPTY⟩ = PointerState.EMPTY ∧
    (s.moveCtor j).cells[s.cells.length]? = some ⟨a.ptr, a.state⟩ ∧
    UniqPtr.getState ⟨a.ptr, a.state⟩ = a.getState ∧
    (∀ v : T, a.state = PointerState.VALID → a.deref s.heap = some v →
      UniqPtr.deref ⟨a.ptr, a.state⟩ (s.moveCtor j).heap = some v) ∧
    (s.moveCtor j).cells.length = s.cells.length + 1 ∧
    (∀ k : Nat, k ≠ j → k < s.cells.length → (s.moveCtor j).cells[k]? = s.cells[k]?) ∧
    (s.moveCtor j).heap = s.heap ∧
    (s.moveCtor j).handed = s.handed := by
  have hlt := getElem?_lt_length hj
  have e : s.moveCtor j = { s with cells :=
      (s.cells ++ [UniqPtr.mk a.ptr a.state]).set j ⟨0, PointerState.EMPTY⟩ } := by
    simp [moveCtor, hj]
  rw [e]
  refine ⟨?_, rfl, ?_, rfl, fun v _ hv => hv, ?_, ?_, rfl, rfl⟩
  · simp [List.getElem?_set]
    omega
  · rw [List.getElem?_set_ne (by omega)]
    simp
  · simp
  · intro k hk hkl
    rw [List.getElem?_set_ne (by omega), List.getElem?_append_left hkl]

theorem moveCtor_spec_witness :
    ((Sys.init.ctorNew (42 : Nat)).moveCtor 0).cells =
      [⟨0, PointerState.EMPTY⟩, ⟨1, PointerState.VALID⟩] ∧
    UniqPtr.deref ⟨1, PointerState.VALID⟩ ((Sys.init.ctorNew (42 : Nat)).moveCtor 0).heap =
      some 42 :=
  ⟨by decide,
   (moveCtor_spec (Sys.init.ctorNew (42 : Nat)) 0 ⟨1, PointerState.VALID⟩ (by decide)).2.2.2.2.1
     42 rfl (by decide)⟩

/-- C5: for distinct objects `i` (holding `b`) and `j` (holding `a`) where `b`
owns an allocation other than the one of `a`, `i = std::move(j)` logs exactly one
deallocation, that of `b.ptr`, after which `b.ptr` is dead and every other
allocation reads as before; object `i` gets the pointer and state of `a`,
object `j` gets a null pointer and `EMPTY`; nothing is allocated. -/
theorem moveAssign_spec (s : Sys T) (i j : Nat) (b a : UniqPtr)
    (hi : s.cells[i]? = some b) (hj : s.cells[j]? = some a) (hne : i ≠ j)
    (hown : b.ptr ≠ 0) (hdiff : b.ptr ≠ a.ptr) :
    (s.moveAssign i j).heap.freed = b.ptr :: s.heap.freed ∧
    (s.moveAssign i j).heap.deallocs b.ptr = s.heap.deallocs b.ptr + 1 ∧
    (∀ q : Nat, q ≠ b.ptr → (s.moveAssign i j).heap.deallocs q = s.heap.deallocs q) ∧
    (s.moveAssign i j).heap.read b.ptr = none ∧
    (∀ q : Nat, q ≠ b.ptr → (s.moveAssign i j).heap.read q = s.heap.read q) ∧
    (s.moveAssign i j).heap.read a.ptr = s.heap.read a.ptr ∧
    (s.moveAssign i j).heap.count = s.heap.count ∧
    (s.moveAssign i j).cells[i]? = some ⟨a.ptr, a.state⟩ ∧
    (s.moveAssign i j).cells[j]? = some ⟨0, PointerState.EMPTY⟩ ∧
    (∀ k : Nat, k ≠ i → k ≠ j → (s.moveAssign i j).cells[k]? = s.cells[k]?) ∧
    (s.moveAssign i j).handed = s.handed := by
  have hil := getElem?_lt_length hi
  have hjl := getElem?_lt_length hj
  have e : s.moveAssign i j = { s with
      heap := s.heap.delete b.ptr
      cells := (s.cells.set i ⟨a.ptr, a.state⟩).set j ⟨0, PointerState.EMPTY⟩ } := by
    simp [moveAssign, hi, hj, hne]
  have hf : (s.heap.delete b.ptr).freed = b.ptr :: s.heap.freed := by
    simp [Heap.delete, hown]
  rw [e]
  refine ⟨hf, ?_, ?_, read_delete_self _ _, fun q hq => read_delete_ne _ _ _ hq,
    read_delete_ne _ _ _ (Ne.symm hdiff), ?_, ?_, ?_, ?_, rfl⟩
  · simp [Heap.deallocs, hf]
  · intro q hq
    simp [Heap.deallocs, hf, List.count_cons, Ne.symm hq]
  · simp [Heap.delete, hown]
  · simp [List.getElem?_set, hne, Ne.symm hne, hil]
  · simp [List.getElem?_set, hjl]
  · intro k hki hkj
    rw [List.getElem?_set_ne (Ne.symm hkj), List.getElem?_set_ne (Ne.symm hki)]

theorem moveAssign_spec_witness :
    (((Sys.init.ctorNew (7 : Nat)).ctorNew 9).moveAssign 1 0).heap.freed = [2] ∧
    (((Sys.init.ctorNew (7 : Nat)).ctorNew 9).moveAssign 1 0).cells =
      [⟨0, PointerState.EMPTY⟩, ⟨1, PointerState.VALID⟩] :=
  ⟨(moveAssign_spec ((Sys.init.ctorNew (7 : Nat)).ctorNew 9) 1 0 ⟨2, PointerState.VALID⟩
      ⟨1, PointerState.VALID⟩ (by decide) (by decide) (by decide) (by decide) (by decide)).1,
   by decide⟩

/-- C6: self-move-assignment `a = std::move(a)` changes nothing: the object
store, the heap (its deallocation log included) and the handles of the caller are
all as before. -/
theorem moveAssign_self (s : Sys T) (i : Nat) : s.moveAssign i i = s := by
  unfold moveAssign
  cases s.cells[i]? <;> simp

theorem free_eq (s : Sys T) (i : Nat) (a : UniqPtr) (hi : s.cells[i]? = some a) :
    s.free i = { s with
      heap := s.heap.delete a.ptr
      cells := s.cells.set i ⟨0, PointerState.RELEASED⟩ } := by
  simp [free, hi]

/-- C7: after `free()` on object `i` (holding `a`): if `a.ptr` was non-null it
has been deallocated exactly once by the call (one new log entry, the
allocation is dead), otherwise nothing was deallocated; the object has a null
pointer, `getState()` is `RELEASED` and `operator bool` is false. -/
theorem free_spec (s : Sys T) (i : Nat) (a : UniqPtr) (hi : s.cells[i]? = some a) :
    (a.ptr ≠ 0 → (s.free i).heap.freed = a.ptr :: s.heap.freed ∧
      (s.free i).heap.deallocs a.ptr = s.heap.deallocs a.ptr + 1 ∧
      (s.free i).heap.read a.ptr = none) ∧
    (a.ptr = 0 → (s.free i).heap = s.heap) ∧
    (∀ q : Nat, q ≠ a.ptr → (s.free i).heap.deallocs q = s.heap.deallocs q ∧
      (s.free i).heap.read q = s.heap.read q) ∧
    (s.free i).cells[i]? = some ⟨0, PointerState.RELEASED⟩ ∧
    UniqPtr.ptr ⟨0, PointerState.RELEASED⟩ = 0 ∧
    UniqPtr.getState ⟨0, PointerState.RELEASED⟩ = PointerState.RELEASED ∧
    UniqPtr.toBool ⟨0, PointerState.RELEASED⟩ = false ∧
    (∀ k : Nat, k ≠ i → (s.free i).cells[k]? = s.cells[k]?) := by
  have hil := getElem?_lt_length hi
  rw [free_eq s i a hi]
  refine ⟨fun h0 => ⟨?_, ?_, read_delete_self _ _⟩, fun h0 => ?_, fun q hq => ⟨?_, ?_⟩,
    ?_, rfl, rfl, rfl, fun k hk => ?_⟩
  · simp [Heap.delete, h0]
  · simp [Heap.deallocs, Heap.delete, h0]
  · simp [Heap.delete, h0]
  · by_cases h0 : a.ptr = 0
    · simp [Heap.delete, h0]
    · simp [Heap.deallocs, Heap.delete, h0, List.count_cons, Ne.symm hq]
  · exact read_delete_ne _ _ _ hq
  · simp [List.getElem?_set, hil]
  · simp [List.getElem?_set_ne (Ne.symm hk)]

theorem free_spec_witness :
    ((Sys.init.ctorNew (42 : Nat)).free 0).heap.freed = [1] ∧
    ((Sys.init.ctorNew (42 : Nat)).free 0).cells = [⟨0, PointerState.RELEASED⟩] :=
  ⟨((free_spec (Sys.init.ctorNew (42 : Nat)) 0 ⟨1, PointerState.VALID⟩ (by decide)).1
      (by decide)).1,
   by decide⟩

/-- C8: `free()` twice on object `i` (holding `a`) leaves the same program
state as `free()` once (null pointer, `RELEASED`), and the two calls together
log exactly one deallocation of `a.ptr` when it was non-null and none when it
was null. -/
theorem free_free (s : Sys T) (i : Nat) (a : UniqPtr) (hi : s.cells[i]? = some a) :
    (s.free i).free i = s.free i ∧
    ((s.free i).free i).cells[i]? = some ⟨0, PointerState.RELEASED⟩ ∧
    (a.ptr ≠ 0 → ((s.free i).free i).heap.freed = a.ptr :: s.heap.freed ∧
      ((s.free i).free i).heap.deallocs a.ptr = s.heap.deallocs a.ptr + 1) ∧
    (a.ptr = 0 → ((s.free i).free i).heap.freed = s.heap.freed) ∧
    (∀ q : Nat, q ≠ a.ptr → ((s.free i).free i).heap.deallocs q = s.heap.deallocs q) := by
  have hil := getElem?_lt_length hi
  have h1 : (s.free i).cells[i]? = some ⟨0, PointerState.RELEASED⟩ := by
    rw [free_eq s i a hi]
    simp [List.getElem?_set, hil]
  have h2 : (s.free i).free i = s.free i := by
    rw [free_eq (s.free i) i _ h1]
    rw [free_eq s i a hi]
    simp [Heap.delete]
  rw [h2]
  refine ⟨rfl, h1, fun h0 => ?_, fun h0 => ?_, fun q hq => ?_⟩
  · rw [free_eq s i a hi]
    simp [Heap.deallocs, Heap.delete, h0]
  · rw [free_eq s i a hi]
    simp [Heap.delete, h0]
  · rw [free_eq s i a hi]
    by_cases h0 : a.ptr = 0
    · simp [Heap.delete, h0]
    · simp [Heap.deallocs, Heap.delete, h0, List.count_cons, Ne.symm hq]

theorem free_free_witness :
    (((Sys.init.ctorNew (42 : Nat)).free 0).free 0).heap.freed = [1] ∧
    ((Sys.init.ctorNew (42 : Nat)).free 0).free 0 = (Sys.init.ctorNew (42 : Nat)).free 0 :=
  ⟨((free_free (Sys.init.ctorNew (42 : Nat)) 0 ⟨1, PointerState.VALID⟩ (by decide)).2.2.1
      (by decide)).1,
   by decide⟩

/-- C9: `release()` on object `i` that is `VALID` and dereferences to `v`
returns the pointer of the object, leaves the heap as it was (nothing is
deallocated), leaves the object with a null pointer, `RELEASED`, and
`operator bool` false; a new object constructed from the returned pointer
dereferences to `v`. -/
theorem release_spec (s : Sys T) (i : Nat) (a : UniqPtr) (v : T)
    (hi : s.cells[i]? = some a) (_hs : a.getState = PointerState.VALID)
    (hv : a.deref s.heap = some v) :
    (s.release i).1 = a.ptr ∧
    (s.release i).2.heap = s.heap ∧
    (s.release i).2.cells[i]? = some ⟨0, PointerState.RELEASED⟩ ∧
    UniqPtr.getState ⟨0, PointerState.RELEASED⟩ = PointerState.RELEASED ∧
    UniqPtr.toBool ⟨0, PointerState.RELEASED⟩ = false ∧
    (∀ k : Nat, k ≠ i → (s.release i).2.cells[k]? = s.cells[k]?) ∧
    ((s.release i).2.ctor (s.release i).1).cells[s.cells.length]? =
      some ⟨a.ptr, PointerState.VALID⟩ ∧
    UniqPtr.deref ⟨a.ptr, PointerState.VALID⟩ ((s.release i).2.ctor (s.release i).1).heap =
      some v := by
  have hil := getElem?_lt_length hi
  have e : s.release i =
      (a.ptr, { s with cells := s.cells.set i ⟨0, PointerState.RELEASED⟩ }) := by
    simp [release, hi]
  rw [e]
  refine ⟨rfl, rfl, ?_, rfl, rfl, fun k hk => ?_, ?_, hv⟩
  · simp [List.getElem?_set, hil]
  · simp [List.getElem?_set_ne (Ne.symm hk)]
  · simp [ctor]

theorem release_spec_witness :
    ((Sys.init.ctorNew (42 : Nat)).release 0).1 = 1 ∧
    ((Sys.init.ctorNew (42 : Nat)).release 0).2.heap.freed = [] ∧
    UniqPtr.deref ⟨1, PointerState.VALID⟩
      (((Sys.init.ctorNew (42 : Nat)).release 0).2.ctor
        ((Sys.init.ctorNew (42 : Nat)).release 0).1).heap = some 42 :=
  ⟨(release_spec (Sys.init.ctorNew (42 : Nat)) 0 ⟨1, PointerState.VALID⟩ 42
      (by decide) (by decide) (by decide)).1,
   by decide,
   (release_spec (Sys.init.ctorNew (42 : Nat)) 0 ⟨1, PointerState.VALID⟩ 42
      (by decide) (by decide) (by decide)).2.2.2.2.2.2.2⟩

/-- C10: `a.swap(b)` on objects `i` (holding `a`) and `j` (holding `b`) leaves
object `i` with the pointer and state of `b` and object `j` with those of `a`,
so `getState()` and the dereferenced values are exchanged; every other object,
the heap (no allocation, no deallocation) and the handles of the caller are
unchanged. -/
theorem swap_spec (s : Sys T) (i j : Nat) (a b : UniqPtr)
    (hi : s.cells[i]? = some a) (hj : s.cells[j]? = some b) :
    (s.swap i j).cells[i]? = some ⟨b.ptr, b.state⟩ ∧
    (s.swap i j).cells[j]? = some ⟨a.ptr, a.state⟩ ∧
    UniqPtr.getState ⟨b.ptr, b.state⟩ = b.getState ∧
    UniqPtr.getState ⟨a.ptr, a.state⟩ = a.getState ∧
    UniqPtr.deref ⟨b.ptr, b.state⟩ (s.swap i j).heap = b.deref s.heap ∧
    UniqPtr.deref ⟨a.ptr, a.state⟩ (s.swap i j).heap = a.deref s.heap ∧
    (∀ k : Nat, k ≠ i → k ≠ j → (s.swap i j).cells[k]? = s.cells[k]?) ∧
    (s.swap i j).heap = s.heap ∧
    (s.swap i j).handed = s.handed := by
  have hil := getElem?_lt_length hi
  have hjl := getElem?_lt_length hj
  have e : s.swap i j = { s with
      cells := (s.cells.set i ⟨b.ptr, b.state⟩).set j ⟨a.ptr, a.state⟩ } := by
    simp [swap, hi, hj]
  rw [e]
  refine ⟨?_, ?_, rfl, rfl, rfl, rfl, fun k hki hkj => ?_, rfl, rfl⟩
  · by_cases hij : i = j
    · subst hij
      have hab : a = b := by
        rw [hi] at hj
        exact Option.some.inj hj
      simp [List.getElem?_set, hil, hab]
    · simp [List.getElem?_set, hil, hij, Ne.symm hij]
  · simp [List.getElem?_set, hjl]
  · rw [List.getElem?_set_ne (Ne.symm hkj), List.getElem?_set_ne (Ne.symm hki)]

theorem swap_spec_witness :
    (((Sys.init.ctorNew (7 : Nat)).ctorDefault).swap 0 1).cells =
      [⟨0, PointerState.EMPTY⟩, ⟨1, PointerState.VALID⟩] ∧
    (((Sys.init.ctorNew (7 : Nat)).ctorDefault).swap 0 1).heap =
      ((Sys.init.ctorNew (7 : Nat)).ctorDefault).heap :=
  ⟨by decide,
   (swap_spec ((Sys.init.ctorNew (7 : Nat)).ctorDefault) 0 1 ⟨1, PointerState.VALID⟩
      ⟨0, PointerState.EMPTY⟩ (by decide) (by decide)).2.2.2.2.2.2.2.1⟩

/-! ## Ownership accounting over runs -/

theorem owners_append (cells : List UniqPtr) (c : UniqPtr) (p : Nat) :
    owners (cells ++ [c]) p = owners cells p + (if c.ptr = p then 1 else 0) := by
  simp [owners, List.countP_append, List.countP_cons]

theorem owners_set (cells : List UniqPtr) (i : Nat) (a c : UniqPtr) (p : Nat)
    (hi : cells[i]? = some a) :
    owners (cells.set i c) p + (if a.ptr = p then 1 else 0) =
      owners cells p + (if c.ptr = p then 1 else 0) := by
  induction cells generalizing i with
  | nil => simp at hi
  | cons x l ih =>
    cases i with
    | zero =>
      simp only [List.getElem?_cons_zero, Option.some.injEq] at hi
      subst hi
      simp only [owners, List.set_cons_zero, List.countP_cons, beq_iff_eq]
      omega
    | succ k =>
      simp only [List.getElem?_cons_succ] at hi
      have h1 := ih k hi
      simp only [owners, List.set_cons_succ, List.countP_cons, beq_iff_eq] at h1 ⊢
      omega

theorem deallocs_delete (h : Heap T) (q p : Nat) (hp : p ≠ 0) :
    (h.delete q).deallocs p = h.deallocs p + (if q = p then 1 else 0) := by
  unfold Heap.delete Heap.deallocs
  by_cases hq : q = 0
  · have hne : ¬ q = p := fun e => hp (e ▸ hq)
    simp [hq, hne, Ne.symm hp]
  · by_cases hqp : q = p
    · subst hqp
      simp [hq]
    · simp [hq, hqp, List.count_cons]

theorem count_delete (h : Heap T) (q : Nat) : (h.delete q).count = h.count := by
  unfold Heap.delete
  split <;> rfl

theorem getElem?_set_lookup {α : Type} (l : List α) (i j : Nat) (x : α) (hi : i < l.length) :
    (l.set i x)[j]? = if i = j then some x else l[j]? := by
  by_cases hij : i = j
  · subst hij
    simp [List.getElem?_set, hi]
  · simp [List.getElem?_set_ne hij, hij]

theorem accounted_init : Accounted (Sys.init : Sys T) := by
  intro p hp
  have h1 : ¬ p ≤ 0 := by omega
  simp [Sys.init, Heap.empty, owners, Heap.deallocs, h1]

theorem moveCtor_eq (s : Sys T) (j : Nat) (a : UniqPtr) (hj : s.cells[j]? = some a) :
    s.moveCtor j = { s with cells :=
      (s.cells ++ [UniqPtr.mk a.ptr a.state]).set j ⟨0, PointerState.EMPTY⟩ } := by
  simp [moveCtor, hj]

theorem moveCtor_none (s : Sys T) (j : Nat) (hj : s.cells[j]? = none) : s.moveCtor j = s := by
  simp [moveCtor, hj]

theorem moveAssign_eq (s : Sys T) (i j : Nat) (a b : UniqPtr)
    (hi : s.cells[i]? = some a) (hj : s.cells[j]? = some b) (hij : i ≠ j) :
    s.moveAssign i j = { s with
      heap := s.heap.delete a.ptr
      cells := (s.cells.set i ⟨b.ptr, b.state⟩).set j ⟨0, PointerState.EMPTY⟩ } := by
  simp [moveAssign, hi, hj, hij]

theorem moveAssign_same_object (s : Sys T) (i : Nat) : s.moveAssign i i = s := by
  unfold moveAssign
  cases s.cells[i]? <;> simp

theorem moveAssign_none (s : Sys T) (i j : Nat)
    (h : s.cells[i]? = none ∨ s.cells[j]? = none) : s.moveAssign i j = s := by
  unfold moveAssign
  rcases h with h | h
  · rw [h]
  · rw [h]
    cases s.cells[i]? <;> rfl

theorem swap_eq (s : Sys T) (i j : Nat) (a b : UniqPtr)
    (hi : s.cells[i]? = some a) (hj : s.cells[j]? = some b) :
    s.swap i j = { s with
      cells := (s.cells.set i ⟨b.ptr, b.state⟩).set j ⟨a.ptr, a.state⟩ } := by
  simp [swap, hi, hj]

theorem swap_none (s : Sys T) (i j : Nat)
    (h : s.cells[i]? = none ∨ s.cells[j]? = none) : s.swap i j = s := by
  unfold swap
  rcases h with h | h
  · rw [h]
  · rw [h]
    cases s.cells[i]? <;> rfl

theorem free_none (s : Sys T) (i : Nat) (hi : s.cells[i]? = none) : s.free i = s := by
  simp [free, hi]

theorem release_eq (s : Sys T) (i : Nat) (a : UniqPtr) (hi : s.cells[i]? = some a) :
    s.release i = (a.ptr, { s with cells := s.cells.set i ⟨0, PointerState.RELEASED⟩ }) := by
  simp [release, hi]

theorem release_none (s : Sys T) (i : Nat) (hi : s.cells[i]? = none) :
    s.release i = (0, s) := by
  simp [release, hi]

theorem step_release_eq (s : Sys T) (i : Nat) (a : UniqPtr) (hi : s.cells[i]? = some a) :
    s.step (Op.release i) = { s with
      cells := s.cells.set i ⟨0, PointerState.RELEASED⟩
      handed := if a.ptr = 0 then s.handed else a.ptr :: s.handed } := by
  simp only [step, release_eq s i a hi]
  split <;> rfl

theorem step_release_none (s : Sys T) (i : Nat) (hi : s.cells[i]? = none) :
    s.step (Op.release i) = s := by
  simp [step, release_none s i hi]

theorem accounted_step (s : Sys T) (op : Op T) (hop : op.isRawCtor = false)
    (h : Accounted s) : Accounted (s.step op) := by
  cases op with
  | ctorDefault =>
    intro p hp
    have hs := h p hp
    have h1 := owners_append s.cells ⟨0, PointerState.EMPTY⟩ p
    simp only [step, ctorDefault]
    rw [h1, if_neg (Ne.symm hp)]
    exact hs
  | ctor q => simp [Op.isRawCtor] at hop
  | ctorNew v =>
    intro p hp
    have hs := h p hp
    have h1 := owners_append s.cells ⟨s.heap.count + 1, PointerState.VALID⟩ p
    simp only [step, ctorNew, ctor, Heap.new, Heap.deallocs] at h1 hs ⊢
    rw [h1]
    split_ifs at hs ⊢ <;> omega
  | moveCtor j =>
    show Accounted (s.moveCtor j)
    intro p hp
    have hs := h p hp
    rcases hj : s.cells[j]? with _ | a
    · rw [moveCtor_none s j hj]
      exact hs
    · have hjl := getElem?_lt_length hj
      have hj2 : (s.cells ++ [UniqPtr.mk a.ptr a.state])[j]? = some a := by
        rw [List.getElem?_append_left hjl, hj]
      have h1 := owners_set _ j a ⟨0, PointerState.EMPTY⟩ p hj2
      have h2 := owners_append s.cells ⟨a.ptr, a.state⟩ p
      rw [moveCtor_eq s j a hj]
      simp only [] at h1 h2 ⊢
      rw [if_neg (Ne.symm hp)] at h1
      split_ifs at h1 h2 hs ⊢ <;> omega
  | moveAssign i j =>
    show Accounted (s.moveAssign i j)
    intro p hp
    have hs := h p hp
    rcases hi : s.cells[i]? with _ | a
    · rw [moveAssign_none s i j (Or.inl hi)]
      exact hs
    rcases hj : s.cells[j]? with _ | b
    · rw [moveAssign_none s i j (Or.inr hj)]
      exact hs
    by_cases hij : i = j
    · subst hij
      rw [moveAssign_same_object]
      exact hs
    · have hj2 : (s.cells.set i ⟨b.ptr, b.state⟩)[j]? = some b := by
        rw [List.getElem?_set_ne hij, hj]
      have h1 := owners_set s.cells i a ⟨b.ptr, b.state⟩ p hi
      have h2 := owners_set _ j b ⟨0, PointerState.EMPTY⟩ p hj2
      have h3 := deallocs_delete s.heap a.ptr p hp
      have h4 := count_delete s.heap a.ptr
      rw [moveAssign_eq s i j a b hi hj hij]
      simp only [] at h1 h2 ⊢
      rw [if_neg (Ne.symm hp)] at h2
      rw [h3, h4]
      split_ifs at h1 h2 hs ⊢ <;> omega
  | swap i j =>
    show Accounted (s.swap i j)
    intro p hp
    have hs := h p hp
    rcases hi : s.cells[i]? with _ | a
    · rw [swap_none s i j (Or.inl hi)]
      exact hs
    rcases hj : s.cells[j]? with _ | b
    · rw [swap_none s i j (Or.inr hj)]
      exact hs
    have hil := getElem?_lt_length hi
    have hj2 : (s.cells.set i ⟨b.ptr, b.state⟩)[j]? =
        if i = j then some ⟨b.ptr, b.state⟩ else some b := by
      rw [getElem?_set_lookup _ _ _ _ hil, hj]
    have hj3 : (s.cells.set i ⟨b.ptr, b.state⟩)[j]? = some ⟨b.ptr, b.state⟩ := by
      rw [hj2]
      split <;> rfl
    have h1 := owners_set s.cells i a ⟨b.ptr, b.state⟩ p hi
    have h2 := owners_set _ j ⟨b.ptr, b.state⟩ ⟨a.ptr, a.state⟩ p hj3
    rw [swap_eq s i j a b hi hj]
    simp only [] at h1 h2 ⊢
    split_ifs at h1 h2 hs ⊢ <;> omega
  | free i =>
    show Accounted (s.free i)
    intro p hp
    have hs := h p hp
    rcases hi : s.cells[i]? with _ | a
    · rw [free_none s i hi]
      exact hs
    have h1 := owners_set s.cells i a ⟨0, PointerState.RELEASED⟩ p hi
    have h3 := deallocs_delete s.heap a.ptr p hp
    have h4 := count_delete s.heap a.ptr
    rw [free_eq s i a hi]
    simp only [] at h1 ⊢
    rw [if_neg (Ne.symm hp)] at h1
    rw [h3, h4]
    split_ifs at h1 hs ⊢ <;> omega
  | release i =>
    rcases hi : s.cells[i]? with _ | a
    · rw [step_release_none s i hi]
      exact h
    rw [step_release_eq s i a hi]
    intro p hp
    have hs := h p hp
    have h1 := owners_set s.cells i a ⟨0, PointerState.RELEASED⟩ p hi
    simp only [] at h1 ⊢
    rw [if_neg (Ne.symm hp)] at h1
    by_cases ha : a.ptr = 0
    · have hne : ¬ a.ptr = p := fun e => hp (e ▸ ha)
      rw [if_pos ha]
      rw [if_neg hne] at h1
      omega
    · rw [if_neg ha, List.count_cons]
      simp only [beq_iff_eq]
      split_ifs at h1 hs ⊢ <;> omega

theorem accounted_run (ops : List (Op T)) (s : Sys T)
    (hops : ∀ op ∈ ops, op.isRawCtor = false) (h : Accounted s) : Accounted (s.run ops) := by
  induction ops generalizing s with
  | nil => exact h
  | cons op ops ih =>
    simp only [run, List.foldl_cons]
    exact ih (s.step op) (fun o ho => hops o (List.mem_cons_of_mem _ ho))
      (accounted_step s op (hops op (List.mem_cons_self _ _)) h)

theorem count_step (s : Sys T) (op : Op T) :
    (s.step op).heap.count = s.heap.count + (if op.isCtorNew then 1 else 0) := by
  cases op with
  | ctorDefault => rfl
  | ctor q => rfl
  | ctorNew v => rfl
  | moveCtor j =>
    show (s.moveCtor j).heap.count = _
    rcases hj : s.cells[j]? with _ | a
    · rw [moveCtor_none s j hj]
      rfl
    · rw [moveCtor_eq s j a hj]
      rfl
  | moveAssign i j =>
    show (s.moveAssign i j).heap.count = _
    rcases hi : s.cells[i]? with _ | a
    · rw [moveAssign_none s i j (Or.inl hi)]
      rfl
    rcases hj : s.cells[j]? with _ | b
    · rw [moveAssign_none s i j (Or.inr hj)]
      rfl
    by_cases hij : i = j
    · subst hij
      rw [moveAssign_same_object]
      rfl
    · rw [moveAssign_eq s i j a b hi hj hij]
      exact count_delete _ _
  | swap i j =>
    show (s.swap i j).heap.count = _
    rcases hi : s.cells[i]? with _ | a
    · rw [swap_none s i j (Or.inl hi)]
      rfl
    rcases hj : s.cells[j]? with _ | b
    · rw [swap_none s i j (Or.inr hj)]
      rfl
    rw [swap_eq s i j a b hi hj]
    rfl
  | free i =>
    show (s.free i).heap.count = _
    rcases hi : s.cells[i]? with _ | a
    · rw [free_none s i hi]
      rfl
    rw [free_eq s i a hi]
    exact count_delete _ _
  | release i =>
    rcases hi : s.cells[i]? with _ | a
    · rw [step_release_none s i hi]
      rfl
    rw [step_release_eq s i a hi]
    rfl

theorem count_run (ops : List (Op T)) (s : Sys T) :
    (s.run ops).heap.count = s.heap.count + ops.countP Op.isCtorNew := by
  induction ops generalizing s with
  | nil => rfl
  | cons op ops ih =>
    simp only [run, List.foldl_cons] at ih ⊢
    rw [ih (s.step op), count_step, List.countP_cons]
    omega

theorem deallocs_foldl_dtor (l : List UniqPtr) (h : Heap T) (p : Nat) (hp : p ≠ 0) :
    (l.foldl dtor h).deallocs p = h.deallocs p + owners l p := by
  induction l generalizing h with
  | nil => rfl
  | cons c l ih =>
    simp only [List.foldl_cons, owners, List.countP_cons, beq_iff_eq] at ih ⊢
    rw [ih (dtor h c)]
    simp only [dtor]
    rw [deallocs_delete h c.ptr p hp]
    omega

theorem deallocs_destroyAll (s : Sys T) (p : Nat) (hp : p ≠ 0) :
    s.destroyAll.heap.deallocs p = s.heap.deallocs p + owners s.cells p := by
  simp only [destroyAll]
  rw [deallocs_foldl_dtor _ _ p hp]
  simp [owners, List.countP_reverse]

/-- C1: run any finite sequence of operations that wraps only fresh
allocations (no caller-chosen raw pointer) from the empty program, then destroy
every object.  The allocations made are the handles `1 .. count`, one per
`ctorNew`.  Each of them that `release` did not hand back to the caller has
been deallocated exactly once; each that was handed back was handed back once,
has been deallocated zero times and is held by no object. -/
theorem exactly_once (ops : List (Op T)) (hops : ∀ op ∈ ops, op.isRawCtor = false)
    (p : Nat) (hp0 : p ≠ 0) (hp : p ≤ ((Sys.init : Sys T).run ops).heap.count) :
    ((Sys.init : Sys T).run ops).heap.count = ops.countP Op.isCtorNew ∧
    (p ∉ ((Sys.init : Sys T).run ops).handed →
      ((Sys.init : Sys T).run ops).destroyAll.heap.deallocs p = 1) ∧
    (p ∈ ((Sys.init : Sys T).run ops).handed →
      ((Sys.init : Sys T).run ops).destroyAll.heap.deallocs p = 0 ∧
      ((Sys.init : Sys T).run ops).handed.count p = 1 ∧
      owners ((Sys.init : Sys T).run ops).cells p = 0) := by
  have hacc := accounted_run ops Sys.init hops accounted_init p hp0
  have hd := deallocs_destroyAll ((Sys.init : Sys T).run ops) p hp0
  rw [if_pos hp] at hacc
  refine ⟨?_, fun hn => ?_, fun hm => ?_⟩
  · rw [count_run]
    simp [Sys.init, Heap.empty]
  · have h0 : ((Sys.init : Sys T).run ops).handed.count p = 0 := List.count_eq_zero.mpr hn
    omega
  · have h1 : 0 < ((Sys.init : Sys T).run ops).handed.count p := List.count_pos_iff.mpr hm
    omega

theorem exactly_once_witness :
    ((Sys.init : Sys Nat).run
        [Op.ctorNew 42, Op.ctorNew 7, Op.moveCtor 0, Op.release 1, Op.free 2]).handed = [2] ∧
    ((Sys.init : Sys Nat).run
        [Op.ctorNew 42, Op.ctorNew 7, Op.moveCtor 0, Op.release 1,
          Op.free 2]).destroyAll.heap.deallocs 1 = 1 :=
  ⟨by decide,
   (exactly_once [Op.ctorNew 42, Op.ctorNew 7, Op.moveCtor 0, Op.release 1, Op.free 2]
      (by decide) 1 (by decide) (by decide)).2.1 (by decide)⟩

/-! ## No aliasing -/

theorem noAlias_of_owners (cells : List UniqPtr)
    (h : ∀ p : Nat, p ≠ 0 → owners cells p ≤ 1) : NoAlias cells := by
  intro i j a b hi hj hij ha hab
  have hil := getElem?_lt_length hi
  have hj2 : (cells.set i ⟨0, PointerState.EMPTY⟩)[j]? = some b := by
    rw [List.getElem?_set_ne hij, hj]
  have h1 := owners_set cells i a ⟨0, PointerState.EMPTY⟩ a.ptr hi
  have h2 := owners_set _ j b ⟨0, PointerState.RELEASED⟩ a.ptr hj2
  have h3 := h a.ptr ha
  simp only [] at h1 h2
  split_ifs at h1 h2 <;> omega

theorem owners_step_le (s : Sys T) (op : Op T) (hop : op.isCtor = false) (p : Nat)
    (hp : p ≠ 0) : owners (s.step op).cells p ≤ owners s.cells p := by
  cases op with
  | ctorDefault => simp [Op.isCtor] at hop
  | ctor q => simp [Op.isCtor] at hop
  | ctorNew v => simp [Op.isCtor] at hop
  | moveCtor j =>
    show owners (s.moveCtor j).cells p ≤ _
    rcases hj : s.cells[j]? with _ | a
    · rw [moveCtor_none s j hj]
    · have hjl := getElem?_lt_length hj
      have hj2 : (s.cells ++ [UniqPtr.mk a.ptr a.state])[j]? = some a := by
        rw [List.getElem?_append_left hjl, hj]
      have h1 := owners_set _ j a ⟨0, PointerState.EMPTY⟩ p hj2
      have h2 := owners_append s.cells ⟨a.ptr, a.state⟩ p
      rw [moveCtor_eq s j a hj]
      simp only [] at h1 h2 ⊢
      rw [if_neg (Ne.symm hp)] at h1
      split_ifs at h1 h2 <;> omega
  | moveAssign i j =>
    show owners (s.moveAssign i j).cells p ≤ _
    rcases hi : s.cells[i]? with _ | a
    · rw [moveAssign_none s i j (Or.inl hi)]
    rcases hj : s.cells[j]? with _ | b
    · rw [moveAssign_none s i j (Or.inr hj)]
    by_cases hij : i = j
    · subst hij
      rw [moveAssign_same_object]
    · have hj2 : (s.cells.set i ⟨b.ptr, b.state⟩)[j]? = some b := by
        rw [List.getElem?_set_ne hij, hj]
      have h1 := owners_set s.cells i a ⟨b.ptr, b.state⟩ p hi
      have h2 := owners_set _ j b ⟨0, PointerState.EMPTY⟩ p hj2
      rw [moveAssign_eq s i j a b hi hj hij]
      simp only [] at h1 h2 ⊢
      rw [if_neg (Ne.symm hp)] at h2
      split_ifs at h1 h2 <;> omega
  | swap i j =>
    show owners (s.swap i j).cells p ≤ _
    rcases hi : s.cells[i]? with _ | a
    · rw [swap_none s i j (Or.inl hi)]
    rcases hj : s.cells[j]? with _ | b
    · rw [swap_none s i j (Or.inr hj)]
    have hil := getElem?_lt_length hi
    have hj3 : (s.cells.set i ⟨b.ptr, b.state⟩)[j]? = some ⟨b.ptr, b.state⟩ := by
      rw [getElem?_set_lookup _ _ _ _ hil, hj]
      split <;> rfl
    have h1 := owners_set s.cells i a ⟨b.ptr, b.state⟩ p hi
    have h2 := owners_set _ j ⟨b.ptr, b.state⟩ ⟨a.ptr, a.state⟩ p hj3
    rw [swap_eq s i j a b hi hj]
    simp only [] at h1 h2 ⊢
    split_ifs at h1 h2 <;> omega
  | free i =>
    show owners (s.free i).cells p ≤ _
    rcases hi : s.cells[i]? with _ | a
    · rw [free_none s i hi]
    have h1 := owners_set s.cells i a ⟨0, PointerState.RELEASED⟩ p hi
    rw [free_eq s i a hi]
    simp only [] at h1 ⊢
    rw [if_neg (Ne.symm hp)] at h1
    split_ifs at h1 <;> omega
  | release i =>
    rcases hi : s.cells[i]? with _ | a
    · rw [step_release_none s i hi]
    have h1 := owners_set s.cells i a ⟨0, PointerState.RELEASED⟩ p hi
    rw [step_release_eq s i a hi]
    simp only [] at h1 ⊢
    rw [if_neg (Ne.symm hp)] at h1
    split_ifs at h1 <;> omega

theorem owners_run_le (ops : List (Op T)) (s : Sys T) (hops : ∀ op ∈ ops, op.isCtor = false)
    (p : Nat) (hp : p ≠ 0) : owners (s.run ops).cells p ≤ owners s.cells p := by
  induction ops generalizing s with
  | nil => exact Nat.le_refl _
  | cons op ops ih =>
    simp only [run, List.foldl_cons] at ih ⊢
    exact Nat.le_trans (ih (s.step op) (fun o ho => hops o (List.mem_cons_of_mem _ ho)))
      (owners_step_le s op (hops op (List.mem_cons_self _ _)) p hp)

theorem cells_foldl_ctor (ps : List Nat) (s : Sys T) :
    (ps.foldl ctor s).cells = s.cells ++ ps.map (fun p => UniqPtr.mk p PointerState.VALID) := by
  induction ps generalizing s with
  | nil => simp
  | cons q ps ih =>
    simp only [List.foldl_cons, List.map_cons]
    rw [ih (s.ctor q)]
    simp [ctor]

theorem owners_wrapAll (h : Heap T) (ps : List Nat) (p : Nat) :
    owners (wrapAll h ps).cells p = ps.count p := by
  simp only [wrapAll]
  rw [cells_foldl_ctor]
  induction ps with
  | nil => rfl
  | cons q ps ih =>
    simp only [List.nil_append, List.map_cons, owners, List.countP_cons, List.count_cons,
      beq_iff_eq] at ih ⊢
    rw [ih]

/-- C2: start from objects that each wrapped a different pointer (`ps` has no
duplicates) and run any sequence of move constructions, move assignments,
swaps, `free`s and `release`s: in the state reached no two distinct objects
hold the same non-null pointer. -/
theorem noAlias_reachable (h : Heap T) (ps : List Nat) (hd : ps.Nodup)
    (ops : List (Op T)) (hops : ∀ op ∈ ops, op.isCtor = false) :
    NoAlias ((wrapAll h ps).run ops).cells := by
  apply noAlias_of_owners
  intro p hp
  have h1 := owners_run_le ops (wrapAll h ps) hops p hp
  have h2 := owners_wrapAll h ps p
  have h3 := List.nodup_iff_count_le_one.mp hd p
  omega

theorem noAlias_reachable_witness :
    ((wrapAll (Heap.mk 2 [(2, 9), (1, 7)] []) [1, 2]).run
        [Op.moveCtor 0, Op.swap 1 2, Op.moveAssign 0 1]).cells =
      [⟨1, PointerState.VALID⟩, ⟨0, PointerState.EMPTY⟩, ⟨2, PointerState.VALID⟩] ∧
    NoAlias ((wrapAll (Heap.mk 2 [(2, 9), (1, 7)] []) [1, 2]).run
        [Op.moveCtor 0, Op.swap 1 2, Op.moveAssign 0 1]).cells :=
  ⟨by decide,
   noAlias_reachable (Heap.mk 2 [(2, 9), (1, 7)] []) [1, 2] (by decide)
     [Op.moveCtor 0, Op.swap 1 2, Op.moveAssign 0 1] (by decide)⟩

/-! ## Swap twice -/

theorem set_set_back (l : List UniqPtr) (i j : Nat) (a b : UniqPtr)
    (hi : l[i]? = some a) (hj : l[j]? = some b) :
    (((l.set i b).set j a).set i a).set j b = l := by
  have hil := getElem?_lt_length hi
  have hjl := getElem?_lt_length hj
  apply List.ext_getElem?
  intro k
  rw [getElem?_set_lookup _ _ _ _ (by simpa using hjl),
    getElem?_set_lookup _ _ _ _ (by simpa using hil),
    getElem?_set_lookup _ _ _ _ (by simpa using hjl),
    getElem?_set_lookup _ _ _ _ hil]
  by_cases hjk : j = k
  · subst hjk
    rw [if_pos rfl, hj]
  · rw [if_neg hjk]
    by_cases hik : i = k
    · subst hik
      rw [if_pos rfl, hi]
    · rw [if_neg hik, if_neg hjk, if_neg hik]

/-- C11: `a.swap(b)` twice in a row gives back the program state it started
from: both objects have their original pointer and state again, and every
other object, the heap and the handles of the caller never changed. -/
theorem swap_swap (s : Sys T) (i j : Nat) : (s.swap i j).swap i j = s := by
  rcases hi : s.cells[i]? with _ | a
  · rw [swap_none s i j (Or.inl hi), swap_none s i j (Or.inl hi)]
  rcases hj : s.cells[j]? with _ | b
  · rw [swap_none s i j (Or.inr hj), swap_none s i j (Or.inr hj)]
  have hil := getElem?_lt_length hi
  have hjl := getElem?_lt_length hj
  have e1 := swap_eq s i j a b hi hj
  have hj2 : (s.swap i j).cells[j]? = some a := by
    rw [e1]
    simp [List.getElem?_set, hjl]
  have hi2 : (s.swap i j).cells[i]? = some (if i = j then a else b) := by
    rw [e1]
    show ((s.cells.set i ⟨b.ptr, b.state⟩).set j ⟨a.ptr, a.state⟩)[i]? = _
    rw [getElem?_set_lookup _ _ _ _ (by simpa using hjl),
      getElem?_set_lookup _ _ _ _ hil]
    by_cases hij : i = j
    · subst hij
      simp
    · simp [hij, Ne.symm hij]
  have hab : (if i = j then a else b) = b := by
    by_cases hij : i = j
    · subst hij
      rw [hi] at hj
      simp [Option.some.inj hj]
    · simp [hij]
  rw [hab] at hi2
  rw [swap_eq (s.swap i j) i j b a hi2 hj2, e1]
  have hk := set_set_back s.cells i j a b hi hj
  cases s with
  | mk cells heap handed =>
    simp only [] at hk ⊢
    exact congrArg (fun c => Sys.mk c heap handed) hk

/-! ## Invariants of the stored pairs -/

theorem mem_set_set {α : Type} {l : List α} {i j : Nat} {x y c : α}
    (h : c ∈ (l.set i x).set j y) : c ∈ l ∨ c = x ∨ c = y := by
  rcases List.mem_or_eq_of_mem_set h with h1 | h1
  · rcases List.mem_or_eq_of_mem_set h1 with h2 | h2
    · exact Or.inl h2
    · exact Or.inr (Or.inl h2)
  · exact Or.inr (Or.inr h1)

theorem cells_step_inv (P : UniqPtr → Prop) (hE : P ⟨0, PointerState.EMPTY⟩)
    (hR : P ⟨0, PointerState.RELEASED⟩) (hV : ∀ p : Nat, p ≠ 0 → P ⟨p, PointerState.VALID⟩)
    (s : Sys T) (op : Op T) (hop : ∀ p : Nat, op = Op.ctor p → P ⟨p, PointerState.VALID⟩)
    (h : ∀ c ∈ s.cells, P c) : ∀ c ∈ (s.step op).cells, P c := by
  intro c hc
  cases op with
  | ctorDefault =>
    rcases List.mem_append.mp hc with h1 | h1
    · exact h c h1
    · rw [List.mem_singleton.mp h1]
      exact hE
  | ctor q =>
    rcases List.mem_append.mp hc with h1 | h1
    · exact h c h1
    · rw [List.mem_singleton.mp h1]
      exact hop q rfl
  | ctorNew v =>
    rcases List.mem_append.mp hc with h1 | h1
    · exact h c h1
    · rw [List.mem_singleton.mp h1]
      exact hV _ (Nat.succ_ne_zero _)
  | moveCtor j =>
    change c ∈ (s.moveCtor j).cells at hc
    rcases hj : s.cells[j]? with _ | a
    · rw [moveCtor_none s j hj] at hc
      exact h c hc
    · rw [moveCtor_eq s j a hj] at hc
      rcases List.mem_or_eq_of_mem_set hc with h1 | h1
      · rcases List.mem_append.mp h1 with h2 | h2
        · exact h c h2
        · rw [List.mem_singleton.mp h2]
          exact h a (List.getElem?_mem hj)
      · rw [h1]
        exact hE
  | moveAssign i j =>
    change c ∈ (s.moveAssign i j).cells at hc
    rcases hi : s.cells[i]? with _ | a
    · rw [moveAssign_none s i j (Or.inl hi)] at hc
      exact h c hc
    rcases hj : s.cells[j]? with _ | b
    · rw [moveAssign_none s i j (Or.inr hj)] at hc
      exact h c hc
    by_cases hij : i = j
    · subst hij
      rw [moveAssign_same_object] at hc
      exact h c hc
    · rw [moveAssign_eq s i j a b hi hj hij] at hc
      rcases mem_set_set hc with h1 | h1 | h1
      · exact h c h1
      · rw [h1]
        exact h b (List.getElem?_mem hj)
      · rw [h1]
        exact hE
  | swap i j =>
    change c ∈ (s.swap i j).cells at hc
    rcases hi : s.cells[i]? with _ | a
    · rw [swap_none s i j (Or.inl hi)] at hc
      exact h c hc
    rcases hj : s.cells[j]? with _ | b
    · rw [swap_none s i j (Or.inr hj)] at hc
      exact h c hc
    rw [swap_eq s i j a b hi hj] at hc
    rcases mem_set_set hc with h1 | h1 | h1
    · exact h c h1
    · rw [h1]
      exact h b (List.getElem?_mem hj)
    · rw [h1]
      exact h a (List.getElem?_mem hi)
  | free i =>
    change c ∈ (s.free i).cells at hc
    rcases hi : s.cells[i]? with _ | a
    · rw [free_none s i hi] at hc
      exact h c hc
    rw [free_eq s i a hi] at hc
    rcases List.mem_or_eq_of_mem_set hc with h1 | h1
    · exact h c h1
    · rw [h1]
      exact hR
  | release i =>
    rcases hi : s.cells[i]? with _ | a
    · rw [step_release_none s i hi] at hc
      exact h c hc
    rw [step_release_eq s i a hi] at hc
    rcases List.mem_or_eq_of_mem_set hc with h1 | h1
    · exact h c h1
    · rw [h1]
      exact hR

theorem cells_run_inv (P : UniqPtr → Prop) (hE : P ⟨0, PointerState.EMPTY⟩)
    (hR : P ⟨0, PointerState.RELEASED⟩) (hV : ∀ p : Nat, p ≠ 0 → P ⟨p, PointerState.VALID⟩)
    (ops : List (Op T)) (s : Sys T)
    (hops : ∀ op ∈ ops, ∀ p : Nat, op = Op.ctor p → P ⟨p, PointerState.VALID⟩)
    (h : ∀ c ∈ s.cells, P c) : ∀ c ∈ (s.run ops).cells, P c := by
  induction ops generalizing s with
  | nil => exact h
  | cons op ops ih =>
    simp only [run, List.foldl_cons] at ih ⊢
    exact ih (s.step op) (fun o ho => hops o (List.mem_cons_of_mem _ ho))
      (cells_step_inv P hE hR hV s op (hops op (List.mem_cons_self _ _)) h)

/-- C12: run any sequence of operations from the empty program in which the
pointer constructor is never given `nullptr`: for every object of the state
reached, `operator bool` is true exactly when `getState()` is `VALID`. -/
theorem toBool_iff_valid (ops : List (Op T)) (hops : ∀ op ∈ ops, op.wrapsNull = false)
    (c : UniqPtr) (hc : c ∈ ((Sys.init : Sys T).run ops).cells) :
    c.toBool = true ↔ c.getState = PointerState.VALID := by
  refine cells_run_inv (fun c => c.toBool = true ↔ c.getState = PointerState.VALID)
    (by decide) (by decide) ?_ ops Sys.init ?_ ?_ c hc
  · intro p hp
    simp [UniqPtr.toBool, UniqPtr.getState, hp]
  · intro op hop p hp
    subst hp
    have h0 : p ≠ 0 := by simpa [Op.wrapsNull] using hops _ hop
    simp [UniqPtr.toBool, UniqPtr.getState, h0]
  · intro c hc
    simp [Sys.init] at hc

theorem toBool_iff_valid_witness :
    ((Sys.init : Sys Nat).run
        [Op.ctorNew 42, Op.ctor 7, Op.ctorDefault, Op.moveCtor 0, Op.free 1]).cells =
      [⟨0, PointerState.EMPTY⟩, ⟨0, PointerState.RELEASED⟩, ⟨0, PointerState.EMPTY⟩,
        ⟨1, PointerState.VALID⟩] ∧
    (UniqPtr.toBool ⟨1, PointerState.VALID⟩ = true ↔
      UniqPtr.getState ⟨1, PointerState.VALID⟩ = PointerState.VALID) :=
  ⟨by decide,
   toBool_iff_valid [Op.ctorNew 42, Op.ctor 7, Op.ctorDefault, Op.moveCtor 0, Op.free 1]
     (by decide) ⟨1, PointerState.VALID⟩ (by decide)⟩

/-- C13: the pointer constructor given `nullptr` builds an object that
reports `VALID` while its pointer is null and `operator bool` is false; every
other write of a null pointer (default constructor, moved-from source,
`free()`, `release()`) stores `EMPTY` or `RELEASED` with it. -/
theorem ctor_null_valid :
    ((Sys.init : Sys Nat).ctor 0).cells = [⟨0, PointerState.VALID⟩] ∧
    UniqPtr.getState ⟨0, PointerState.VALID⟩ = PointerState.VALID ∧
    UniqPtr.ptr ⟨0, PointerState.VALID⟩ = 0 ∧
    UniqPtr.toBool ⟨0, PointerState.VALID⟩ = false ∧
    UniqPtr.deref ⟨0, PointerState.VALID⟩ ((Sys.init : Sys Nat).ctor 0).heap = none ∧
    ((Sys.init : Sys Nat).ctorDefault).cells = [⟨0, PointerState.EMPTY⟩] ∧
    (((Sys.init : Sys Nat).ctor 0).moveCtor 0).cells =
      [⟨0, PointerState.EMPTY⟩, ⟨0, PointerState.VALID⟩] ∧
    (((Sys.init : Sys Nat).ctor 0).free 0).cells = [⟨0, PointerState.RELEASED⟩] ∧
    (((Sys.init : Sys Nat).ctor 0).release 0).2.cells = [⟨0, PointerState.RELEASED⟩] := by
  decide

/-! ## The state and the origin of the stored pair -/

theorem lookup_marks (cells : List UniqPtr) (ms : List Mark)
    (h : cells.map UniqPtr.state = ms.map Mark.stateOf) (k : Nat) :
    (cells[k]?).map UniqPtr.state = (ms[k]?).map Mark.stateOf := by
  rw [← List.getElem?_map, ← List.getElem?_map, h]

theorem lookup_marks_some (cells : List UniqPtr) (ms : List Mark)
    (h : cells.map UniqPtr.state = ms.map Mark.stateOf) (k : Nat) (a : UniqPtr)
    (hk : cells[k]? = some a) : ∃ m : Mark, ms[k]? = some m ∧ a.state = m.stateOf := by
  have h1 := lookup_marks cells ms h k
  rw [hk] at h1
  rcases hm : ms[k]? with _ | m
  · rw [hm] at h1
    cases h1
  · rw [hm] at h1
    exact ⟨m, rfl, Option.some.inj h1⟩

theorem lookup_marks_none (cells : List UniqPtr) (ms : List Mark)
    (h : cells.map UniqPtr.state = ms.map Mark.stateOf) (k : Nat)
    (hk : cells[k]? = none) : ms[k]? = none := by
  have h1 := lookup_marks cells ms h k
  rw [hk] at h1
  rcases hm : ms[k]? with _ | m
  · rfl
  · rw [hm] at h1
    cases h1

theorem marks_step (s : Sys T) (ms : List Mark) (op : Op T)
    (h : s.cells.map UniqPtr.state = ms.map Mark.stateOf) :
    (s.step op).cells.map UniqPtr.state = (stepMarks ms op).map Mark.stateOf := by
  cases op with
  | ctorDefault => simp [step, ctorDefault, stepMarks, h, Mark.stateOf]
  | ctor q => simp [step, ctor, stepMarks, h, Mark.stateOf]
  | ctorNew v => simp [step, ctorNew, ctor, stepMarks, h, Mark.stateOf]
  | moveCtor j =>
    show (s.moveCtor j).cells.map UniqPtr.state = _
    rcases hj : s.cells[j]? with _ | a
    · rw [moveCtor_none s j hj]
      simp [stepMarks, lookup_marks_none _ _ h j hj, h]
    · obtain ⟨m, hm, ham⟩ := lookup_marks_some _ _ h j a hj
      rw [moveCtor_eq s j a hj]
      simp [stepMarks, hm, h, ham, Mark.stateOf]
  | moveAssign i j =>
    show (s.moveAssign i j).cells.map UniqPtr.state = _
    rcases hi : s.cells[i]? with _ | a
    · rw [moveAssign_none s i j (Or.inl hi)]
      simp [stepMarks, lookup_marks_none _ _ h i hi, h]
    rcases hj : s.cells[j]? with _ | b
    · rw [moveAssign_none s i j (Or.inr hj)]
      have hn := lookup_marks_none _ _ h j hj
      simp only [stepMarks, hn]
      rw [h]
      cases ms[i]? <;> rfl
    obtain ⟨ma, hma, _⟩ := lookup_marks_some _ _ h i a hi
    obtain ⟨mb, hmb, hbm⟩ := lookup_marks_some _ _ h j b hj
    by_cases hij : i = j
    · subst hij
      rw [moveAssign_same_object]
      simp [stepMarks, hma, h]
    · rw [moveAssign_eq s i j a b hi hj hij]
      simp [stepMarks, hma, hmb, hij, h, hbm, Mark.stateOf]
  | swap i j =>
    show (s.swap i j).cells.map UniqPtr.state = _
    rcases hi : s.cells[i]? with _ | a
    · rw [swap_none s i j (Or.inl hi)]
      simp [stepMarks, lookup_marks_none _ _ h i hi, h]
    rcases hj : s.cells[j]? with _ | b
    · rw [swap_none s i j (Or.inr hj)]
      have hn := lookup_marks_none _ _ h j hj
      simp only [stepMarks, hn]
      rw [h]
      cases ms[i]? <;> rfl
    obtain ⟨ma, hma, ham⟩ := lookup_marks_some _ _ h i a hi
    obtain ⟨mb, hmb, hbm⟩ := lookup_marks_some _ _ h j b hj
    rw [swap_eq s i j a b hi hj]
    simp [stepMarks, hma, hmb, h, ham, hbm]
  | free i =>
    show (s.free i).cells.map UniqPtr.state = _
    rcases hi : s.cells[i]? with _ | a
    · rw [free_none s i hi]
      have hn := lookup_marks_none _ _ h i hi
      have hl : ms.length ≤ i := by
        by_contra hc
        rw [List.getElem?_eq_getElem (by omega)] at hn
        cases hn
      simp [stepMarks, List.set_eq_of_length_le hl, h]
    · rw [free_eq s i a hi]
      simp [stepMarks, h, Mark.stateOf]
  | release i =>
    rcases hi : s.cells[i]? with _ | a
    · rw [step_release_none s i hi]
      have hn := lookup_marks_none _ _ h i hi
      have hl : ms.length ≤ i := by
        by_contra hc
        rw [List.getElem?_eq_getElem (by omega)] at hn
        cases hn
      simp [stepMarks, List.set_eq_of_length_le hl, h]
    · rw [step_release_eq s i a hi]
      simp [stepMarks, h, Mark.stateOf]

theorem marks_run (ops : List (Op T)) (s : Sys T) (ms : List Mark)
    (h : s.cells.map UniqPtr.state = ms.map Mark.stateOf) :
    (s.run ops).cells.map UniqPtr.state = (ops.foldl stepMarks ms).map Mark.stateOf := by
  induction ops generalizing s ms with
  | nil => exact h
  | cons op ops ih =>
    simp only [run, List.foldl_cons] at ih ⊢
    exact ih (s.step op) (stepMarks ms op) (marks_step s ms op h)

theorem marks_history (ops : List (Op T)) :
    ((Sys.init : Sys T).run ops).cells.map UniqPtr.state =
      (history ops).map Mark.stateOf :=
  marks_run ops Sys.init [] rfl

theorem null_unless_valid (ops : List (Op T)) (c : UniqPtr)
    (hc : c ∈ ((Sys.init : Sys T).run ops).cells) (hs : c.state ≠ PointerState.VALID) :
    c.ptr = 0 := by
  refine cells_run_inv (fun c => c.state ≠ PointerState.VALID → c.ptr = 0)
    (fun _ => rfl) (fun _ => rfl) (fun p _ hv => absurd rfl hv) ops Sys.init
    (fun op _ p _ hv => absurd rfl hv) ?_ c hc hs
  intro c hc
  simp [Sys.init] at hc

/-- C14, as the code has it: in every state reachable from the empty program,
every object has an origin mark, and its state is `RELEASED` exactly when the
pair it stores was written by `free()` or `release()` (on this object, or on
another one and then carried here by a move or a swap); an object in state
`RELEASED` has a null pointer and `operator bool` false. -/
theorem released_iff_dropped_mark (ops : List (Op T)) (k : Nat) (c : UniqPtr)
    (hc : ((Sys.init : Sys T).run ops).cells[k]? = some c) :
    (∃ m : Mark, (history ops)[k]? = some m ∧
      (c.getState = PointerState.RELEASED ↔ m = Mark.dropped)) ∧
    (c.getState = PointerState.RELEASED → c.ptr = 0 ∧ c.toBool = false) := by
  obtain ⟨m, hm, hcm⟩ := lookup_marks_some _ _ (marks_history ops) k c hc
  refine ⟨⟨m, hm, ?_⟩, fun hr => ?_⟩
  · simp only [UniqPtr.getState, hcm]
    cases m <;> simp [Mark.stateOf]
  · have h0 : c.ptr = 0 := by
      apply null_unless_valid ops c (List.getElem?_mem hc)
      simp only [UniqPtr.getState] at hr
      rw [hr]
      decide
    exact ⟨h0, by simp [UniqPtr.toBool, h0]⟩

theorem released_iff_dropped_mark_witness :
    ((Sys.init : Sys Nat).run [Op.ctorNew 5, Op.free 0, Op.moveCtor 0]).cells[1]? =
      some ⟨0, PointerState.RELEASED⟩ ∧
    history ([Op.ctorNew 5, Op.free 0, Op.moveCtor 0] : List (Op Nat)) =
      [Mark.source, Mark.dropped] ∧
    (UniqPtr.getState ⟨0, PointerState.RELEASED⟩ = PointerState.RELEASED →
      UniqPtr.ptr ⟨0, PointerState.RELEASED⟩ = 0 ∧
      UniqPtr.toBool ⟨0, PointerState.RELEASED⟩ = false) :=
  ⟨by decide, by decide,
   (released_iff_dropped_mark [Op.ctorNew 5, Op.free 0, Op.moveCtor 0] 1
      ⟨0, PointerState.RELEASED⟩ (by decide)).2⟩

/-- C14 as stated fails.  After `UniqPtr<T> a; a.free();` object 0 is
`RELEASED` though it never held a value.  After
`UniqPtr<T> a(new T(5)); a.free(); UniqPtr<T> b = std::move(a);` object 0 held
a value that `free()` destroyed and has a null pointer, yet it is `EMPTY`, and
object 1 is `RELEASED` though `free()` and `release()` were never called on
it. -/
theorem released_iff_dropped_value_fails :
    (((Sys.init : Sys Nat).run [Op.ctorDefault, Op.free 0]).cells =
        [⟨0, PointerState.RELEASED⟩] ∧
      droppedValue 0 (Sys.init : Sys Nat) [Op.ctorDefault, Op.free 0] = false ∧
      ¬ (UniqPtr.getState ⟨0, PointerState.RELEASED⟩ = PointerState.RELEASED ↔
        (droppedValue 0 (Sys.init : Sys Nat) [Op.ctorDefault, Op.free 0] = true ∧
          UniqPtr.ptr ⟨0, PointerState.RELEASED⟩ = 0))) ∧
    (((Sys.init : Sys Nat).run [Op.ctorNew 5, Op.free 0, Op.moveCtor 0]).cells =
        [⟨0, PointerState.EMPTY⟩, ⟨0, PointerState.RELEASED⟩] ∧
      droppedValue 0 (Sys.init : Sys Nat) [Op.ctorNew 5, Op.free 0, Op.moveCtor 0] = true ∧
      droppedValue 1 (Sys.init : Sys Nat) [Op.ctorNew 5, Op.free 0, Op.moveCtor 0] = false ∧
      ¬ (UniqPtr.getState ⟨0, PointerState.EMPTY⟩ = PointerState.RELEASED ↔
        (droppedValue 0 (Sys.init : Sys Nat) [Op.ctorNew 5, Op.free 0, Op.moveCtor 0] = true ∧
          UniqPtr.ptr ⟨0, PointerState.EMPTY⟩ = 0))) := by
  decide

/-- C15, as the code has it: in every state reachable from the empty program,
every object has an origin mark, and its state is `EMPTY` exactly when the pair
it stores was written by the default constructor or by a move that took an
object as its source (this object, or another one from which the pair was
then carried here by a move or a swap); an object in state `EMPTY` has a null
pointer and `operator bool` false. -/
theorem empty_iff_fresh_or_source_mark (ops : List (Op T)) (k : Nat) (c : UniqPtr)
    (hc : ((Sys.init : Sys T).run ops).cells[k]? = some c) :
    (∃ m : Mark, (history ops)[k]? = some m ∧
      (c.getState = PointerState.EMPTY ↔ m = Mark.fresh ∨ m = Mark.source)) ∧
    (c.getState = PointerState.EMPTY → c.ptr = 0 ∧ c.toBool = false) := by
  obtain ⟨m, hm, hcm⟩ := lookup_marks_some _ _ (marks_history ops) k c hc
  refine ⟨⟨m, hm, ?_⟩, fun hr => ?_⟩
  · simp only [UniqPtr.getState, hcm]
    cases m <;> simp [Mark.stateOf]
  · have h0 : c.ptr = 0 := by
      apply null_unless_valid ops c (List.getElem?_mem hc)
      simp only [UniqPtr.getState] at hr
      rw [hr]
      decide
    exact ⟨h0, by simp [UniqPtr.toBool, h0]⟩

theorem empty_iff_fresh_or_source_mark_witness :
    ((Sys.init : Sys Nat).run [Op.ctorNew 5, Op.ctorDefault, Op.moveAssign 0 1]).cells[0]? =
      some ⟨0, PointerState.EMPTY⟩ ∧
    history ([Op.ctorNew 5, Op.ctorDefault, Op.moveAssign 0 1] : List (Op Nat)) =
      [Mark.fresh, Mark.source] ∧
    (UniqPtr.getState ⟨0, PointerState.EMPTY⟩ = PointerState.EMPTY →
      UniqPtr.ptr ⟨0, PointerState.EMPTY⟩ = 0 ∧
      UniqPtr.toBool ⟨0, PointerState.EMPTY⟩ = false) :=
  ⟨by decide, by decide,
   (empty_iff_fresh_or_source_mark [Op.ctorNew 5, Op.ctorDefault, Op.moveAssign 0 1] 0
      ⟨0, PointerState.EMPTY⟩ (by decide)).2⟩

/-- C15 as stated fails.  After `UniqPtr<T> a; a.free();` object 0 never held
a value, yet it is `RELEASED`.  After
`UniqPtr<T> a(new T(5)); UniqPtr<T> b; a = std::move(b);` object 0 is `EMPTY`
though it was given a value and ownership never moved away from it: the
assignment deleted the value.  After
`UniqPtr<T> a(new T(5)); UniqPtr<T> b = std::move(a); a.free();` ownership has
moved away from object 0, yet it is `RELEASED`. -/
theorem empty_iff_never_given_or_moved_fails :
    (((Sys.init : Sys Nat).run [Op.ctorDefault, Op.free 0]).cells =
        [⟨0, PointerState.RELEASED⟩] ∧
      everHeld 0 (Sys.init : Sys Nat) [Op.ctorDefault, Op.free 0] = false ∧
      ¬ (UniqPtr.getState ⟨0, PointerState.RELEASED⟩ = PointerState.EMPTY ↔
        (everHeld 0 (Sys.init : Sys Nat) [Op.ctorDefault, Op.free 0] = false ∨
          movedAway 0 (Sys.init : Sys Nat) [Op.ctorDefault, Op.free 0] = true))) ∧
    (((Sys.init : Sys Nat).run [Op.ctorNew 5, Op.ctorDefault, Op.moveAssign 0 1]).cells =
        [⟨0, PointerState.EMPTY⟩, ⟨0, PointerState.EMPTY⟩] ∧
      ((Sys.init : Sys Nat).run
        [Op.ctorNew 5, Op.ctorDefault, Op.moveAssign 0 1]).heap.freed = [1] ∧
      everHeld 0 (Sys.init : Sys Nat) [Op.ctorNew 5, Op.ctorDefault, Op.moveAssign 0 1] = true ∧
      movedAway 0 (Sys.init : Sys Nat)
        [Op.ctorNew 5, Op.ctorDefault, Op.moveAssign 0 1] = false ∧
      ¬ (UniqPtr.getState ⟨0, PointerState.EMPTY⟩ = PointerState.EMPTY ↔
        (everHeld 0 (Sys.init : Sys Nat)
            [Op.ctorNew 5, Op.ctorDefault, Op.moveAssign 0 1] = false ∨
          movedAway 0 (Sys.init : Sys Nat)
            [Op.ctorNew 5, Op.ctorDefault, Op.moveAssign 0 1] = true))) ∧
    (((Sys.init : Sys Nat).run [Op.ctorNew 5, Op.moveCtor 0, Op.free 0]).cells =
        [⟨0, PointerState.RELEASED⟩, ⟨1, PointerState.VALID⟩] ∧
      movedAway 0 (Sys.init : Sys Nat) [Op.ctorNew 5, Op.moveCtor 0, Op.free 0] = true) := by
  decide

/-! ## Destruction, the scenario of `main`, accessors -/

theorem dtor_null (h : Heap T) (c : UniqPtr) (h0 : c.ptr = 0) : dtor h c = h := by
  simp [dtor, Heap.delete, h0]

/-- C16: destroying an object that holds `c` on heap `h` logs exactly one
deallocation, that of `c.ptr`, when `c.ptr` is non-null, whatever `c.state`
is, and leaves the heap as it was when `c.ptr` is null; no other allocation is
touched.  In particular nothing is deallocated by destroying a
default-constructed object, or object `i` after `free()` or after
`release()`. -/
theorem dtor_spec (h : Heap T) (c : UniqPtr) (s : Sys T) (i : Nat) (a : UniqPtr)
    (hi : s.cells[i]? = some a) :
    (c.ptr ≠ 0 → (dtor h c).freed = c.ptr :: h.freed ∧
      (dtor h c).deallocs c.ptr = h.deallocs c.ptr + 1 ∧
      (dtor h c).read c.ptr = none) ∧
    (c.ptr = 0 → dtor h c = h) ∧
    (∀ q : Nat, q ≠ c.ptr → (dtor h c).deallocs q = h.deallocs q ∧
      (dtor h c).read q = h.read q) ∧
    (s.ctorDefault.cells[s.cells.length]? = some ⟨0, PointerState.EMPTY⟩ ∧
      dtor s.ctorDefault.heap ⟨0, PointerState.EMPTY⟩ = s.ctorDefault.heap) ∧
    ((s.free i).cells[i]? = some ⟨0, PointerState.RELEASED⟩ ∧
      dtor (s.free i).heap ⟨0, PointerState.RELEASED⟩ = (s.free i).heap) ∧
    ((s.release i).2.cells[i]? = some ⟨0, PointerState.RELEASED⟩ ∧
      dtor (s.release i).2.heap ⟨0, PointerState.RELEASED⟩ = (s.release i).2.heap) := by
  have hil := getElem?_lt_length hi
  refine ⟨fun h0 => ⟨?_, ?_, read_delete_self _ _⟩, dtor_null h c, fun q hq => ⟨?_, ?_⟩,
    ⟨?_, dtor_null _ _ rfl⟩, ⟨?_, dtor_null _ _ rfl⟩, ⟨?_, dtor_null _ _ rfl⟩⟩
  · simp [dtor, Heap.delete, h0]
  · simp [dtor, Heap.deallocs, Heap.delete, h0]
  · by_cases h0 : c.ptr = 0
    · rw [dtor_null h c h0]
    · simp [dtor, Heap.deallocs, Heap.delete, h0, List.count_cons, Ne.symm hq]
  · exact read_delete_ne _ _ _ hq
  · simp [ctorDefault]
  · rw [free_eq s i a hi]
    simp [List.getElem?_set, hil]
  · rw [release_eq s i a hi]
    simp [List.getElem?_set, hil]

theorem dtor_spec_witness :
    (dtor (Sys.init.ctorNew (42 : Nat)).heap ⟨1, PointerState.EMPTY⟩).freed = [1] ∧
    dtor ((Sys.init.ctorNew (42 : Nat)).free 0).heap ⟨0, PointerState.RELEASED⟩ =
      ((Sys.init.ctorNew (42 : Nat)).free 0).heap :=
  ⟨((dtor_spec (Sys.init.ctorNew (42 : Nat)).heap ⟨1, PointerState.EMPTY⟩
      (Sys.init.ctorNew (42 : Nat)) 0 ⟨1, PointerState.VALID⟩ (by decide)).1 (by decide)).1,
   (dtor_spec (Sys.init.ctorNew (42 : Nat)).heap ⟨1, PointerState.EMPTY⟩
      (Sys.init.ctorNew (42 : Nat)) 0 ⟨1, PointerState.VALID⟩ (by decide)).2.2.2.2.1.2⟩

/-- C17: the run of `main` with any value `v` in place of `42`.  After
`UniqPtr<T> ptr1(new T(v));` the object dereferences to `v`; after
`UniqPtr<T> ptr2 = std::move(ptr1);` `ptr2` dereferences to `v` and `ptr1` is
`EMPTY`; after `ptr2.free();` `ptr2` is `RELEASED` with `operator bool` false;
after both destructors the one allocation has been deallocated exactly once
and nothing else was. -/
theorem main_scenario (v : T) :
    ((Sys.init : Sys T).run [Op.ctorNew v]).cells = [⟨1, PointerState.VALID⟩] ∧
    UniqPtr.deref ⟨1, PointerState.VALID⟩ ((Sys.init : Sys T).run [Op.ctorNew v]).heap =
      some v ∧
    ((Sys.init : Sys T).run [Op.ctorNew v, Op.moveCtor 0]).cells =
      [⟨0, PointerState.EMPTY⟩, ⟨1, PointerState.VALID⟩] ∧
    UniqPtr.deref ⟨1, PointerState.VALID⟩
      ((Sys.init : Sys T).run [Op.ctorNew v, Op.moveCtor 0]).heap = some v ∧
    UniqPtr.getState ⟨0, PointerState.EMPTY⟩ = PointerState.EMPTY ∧
    ((Sys.init : Sys T).run [Op.ctorNew v, Op.moveCtor 0, Op.free 1]).cells =
      [⟨0, PointerState.EMPTY⟩, ⟨0, PointerState.RELEASED⟩] ∧
    UniqPtr.getState ⟨0, PointerState.RELEASED⟩ = PointerState.RELEASED ∧
    UniqPtr.toBool ⟨0, PointerState.RELEASED⟩ = false ∧
    ((Sys.init : Sys T).run [Op.ctorNew v, Op.moveCtor 0, Op.free 1]).heap.freed = [1] ∧
    ((Sys.init : Sys T).run
      [Op.ctorNew v, Op.moveCtor 0, Op.free 1]).destroyAll.heap.freed = [1] ∧
    ((Sys.init : Sys T).run
      [Op.ctorNew v, Op.moveCtor 0, Op.free 1]).destroyAll.heap.deallocs 1 = 1 ∧
    ((Sys.init : Sys T).run
      [Op.ctorNew v, Op.moveCtor 0, Op.free 1]).destroyAll.heap.count = 1 := by
  refine ⟨rfl, ?_, rfl, ?_, rfl, rfl, rfl, rfl, rfl, rfl, rfl, rfl⟩
  · simp [run, step, ctorNew, ctor, Heap.new, Sys.init, Heap.empty, UniqPtr.deref, Heap.read]
  · simp [run, step, ctorNew, ctor, moveCtor, Heap.new, Sys.init, Heap.empty, UniqPtr.deref,
      Heap.read]

theorem getState_eq (s : Sys T) (i : Nat) (c : UniqPtr) (hi : s.cells[i]? = some c) :
    s.getState i = (some c.state, s) := by
  simp [getState, hi]

/-- C18: `getState()` on object `i` (holding `c`) returns the state stored in
`c` and leaves the whole program state (every object, the heap, the handles of
the caller) as it was; a default-constructed object reports `EMPTY`, has a
null pointer and `operator bool` false, and its construction leaves the heap
untouched. -/
theorem getState_pure (s : Sys T) (i : Nat) (c : UniqPtr) (hi : s.cells[i]? = some c) :
    (s.getState i).1 = some c.state ∧
    c.getState = c.state ∧
    (s.getState i).2 = s ∧
    s.ctorDefault.cells[s.cells.length]? = some ⟨0, PointerState.EMPTY⟩ ∧
    (s.ctorDefault.getState s.cells.length).1 = some PointerState.EMPTY ∧
    UniqPtr.getState ⟨0, PointerState.EMPTY⟩ = PointerState.EMPTY ∧
    UniqPtr.toBool ⟨0, PointerState.EMPTY⟩ = false ∧
    s.ctorDefault.heap = s.heap ∧
    s.ctorDefault.handed = s.handed ∧
    dtor s.ctorDefault.heap ⟨0, PointerState.EMPTY⟩ = s.heap := by
  have hd : s.ctorDefault.cells[s.cells.length]? = some ⟨0, PointerState.EMPTY⟩ := by
    simp [ctorDefault]
  refine ⟨?_, rfl, ?_, hd, ?_, rfl, rfl, rfl, rfl, dtor_null _ _ rfl⟩
  · rw [getState_eq s i c hi]
  · rw [getState_eq s i c hi]
  · rw [getState_eq _ _ _ hd]

theorem getState_pure_witness :
    ((Sys.init.ctorNew (42 : Nat)).getState 0).1 = some PointerState.VALID ∧
    ((Sys.init.ctorNew (42 : Nat)).getState 0).2 = Sys.init.ctorNew (42 : Nat) :=
  ⟨(getState_pure (Sys.init.ctorNew (42 : Nat)) 0 ⟨1, PointerState.VALID⟩ (by decide)).1,
   (getState_pure (Sys.init.ctorNew (42 : Nat)) 0 ⟨1, PointerState.VALID⟩ (by decide)).2.2.1⟩

theorem release_null (s : Sys T) (i : Nat) (a : UniqPtr) (hi : s.cells[i]? = some a)
    (h0 : a.ptr = 0) :
    (s.release i).1 = 0 ∧ (s.release i).2.heap = s.heap ∧
    (s.release i).2.cells[i]? = some ⟨0, PointerState.RELEASED⟩ ∧
    (s.step (Op.release i)).handed = s.handed := by
  have hil := getElem?_lt_length hi
  refine ⟨?_, ?_, ?_, ?_⟩
  · rw [release_eq s i a hi]
    exact h0
  · rw [release_eq s i a hi]
  · rw [release_eq s i a hi]
    simp [List.getElem?_set, hil]
  · rw [step_release_eq s i a hi]
    simp [h0]

/-- C19: `release()` on object `i` (holding `a`) whose pointer is null returns
`nullptr`, leaves the heap as it was (nothing is deallocated), hands nothing to
the caller, leaves every other object alone, and leaves object `i` with a null
pointer and `getState()` equal to `RELEASED`, whatever `a.state` was.  This is
what happens on a default-constructed object, on the source of a move, on an
object after `free()` and on an object after `release()`. -/
theorem release_owning_nothing (s : Sys T) (i : Nat) (a : UniqPtr)
    (hi : s.cells[i]? = some a) :
    (a.ptr = 0 →
      (s.release i).1 = 0 ∧ (s.release i).2.heap = s.heap ∧
      (s.release i).2.cells[i]? = some ⟨0, PointerState.RELEASED⟩ ∧
      UniqPtr.getState ⟨0, PointerState.RELEASED⟩ = PointerState.RELEASED ∧
      (s.step (Op.release i)).handed = s.handed ∧
      (∀ k : Nat, k ≠ i → (s.release i).2.cells[k]? = s.cells[k]?)) ∧
    ((s.ctorDefault.release s.cells.length).1 = 0 ∧
      (s.ctorDefault.release s.cells.length).2.heap = s.heap ∧
      (s.ctorDefault.release s.cells.length).2.cells[s.cells.length]? =
        some ⟨0, PointerState.RELEASED⟩) ∧
    (((s.moveCtor i).release i).1 = 0 ∧
      ((s.moveCtor i).release i).2.heap = s.heap ∧
      ((s.moveCtor i).release i).2.cells[i]? = some ⟨0, PointerState.RELEASED⟩) ∧
    (((s.free i).release i).1 = 0 ∧
      ((s.free i).release i).2.heap = (s.free i).heap ∧
      ((s.free i).release i).2.cells[i]? = some ⟨0, PointerState.RELEASED⟩) ∧
    (((s.release i).2.release i).1 = 0 ∧
      ((s.release i).2.release i).2.heap = s.heap ∧
      ((s.release i).2.release i).2.cells[i]? = some ⟨0, PointerState.RELEASED⟩) := by
  have hil := getElem?_lt_length hi
  have hd : s.ctorDefault.cells[s.cells.length]? = some ⟨0, PointerState.EMPTY⟩ := by
    simp [ctorDefault]
  have hm : (s.moveCtor i).cells[i]? = some ⟨0, PointerState.EMPTY⟩ := by
    rw [moveCtor_eq s i a hi]
    simp [List.getElem?_set]
    omega
  have hf : (s.free i).cells[i]? = some ⟨0, PointerState.RELEASED⟩ := by
    rw [free_eq s i a hi]
    simp [List.getElem?_set, hil]
  have hr : (s.release i).2.cells[i]? = some ⟨0, PointerState.RELEASED⟩ := by
    rw [release_eq s i a hi]
    simp [List.getElem?_set, hil]
  have hmh : (s.moveCtor i).heap = s.heap := by
    rw [moveCtor_eq s i a hi]
  have hrh : (s.release i).2.heap = s.heap := by
    rw [release_eq s i a hi]
  have r1 := release_null _ _ _ hd rfl
  have r2 := release_null _ _ _ hm rfl
  have r3 := release_null _ _ _ hf rfl
  have r4 := release_null _ _ _ hr rfl
  refine ⟨fun h0 => ?_, ⟨r1.1, r1.2.1, r1.2.2.1⟩, ⟨r2.1, ?_, r2.2.2.1⟩,
    ⟨r3.1, r3.2.1, r3.2.2.1⟩, ⟨r4.1, ?_, r4.2.2.1⟩⟩
  · have r0 := release_null s i a hi h0
    refine ⟨r0.1, r0.2.1, r0.2.2.1, rfl, r0.2.2.2, fun k hk => ?_⟩
    rw [release_eq s i a hi]
    simp [List.getElem?_set_ne (Ne.symm hk)]
  · rw [r2.2.1, hmh]
  · rw [r4.2.1, hrh]

theorem release_owning_nothing_witness :
    (Sys.init.ctorDefault : Sys Nat).cells[0]? = some ⟨0, PointerState.EMPTY⟩ ∧
    ((Sys.init.ctorDefault : Sys Nat).release 0).1 = 0 ∧
    ((Sys.init.ctorDefault : Sys Nat).release 0).2.cells[0]? =
      some ⟨0, PointerState.RELEASED⟩ :=
  ⟨by decide,
   ((release_owning_nothing (Sys.init.ctorDefault : Sys Nat) 0 ⟨0, PointerState.EMPTY⟩
      (by decide)).1 rfl).1,
   ((release_owning_nothing (Sys.init.ctorDefault : Sys Nat) 0 ⟨0, PointerState.EMPTY⟩
      (by decide)).1 rfl).2.2.1⟩

end Sys

end UniquePointerNamespace
